import Mathlib

/-!
Shallow embedding of the pdb2cif identifier codec and record serialization
engine (src/pdb2cif/pdb/types.py and src/pdb2cif/pdb/files.py).

Machine integers are modelled as `Nat` (the spec's Identifier invariant is
`n ≥ 0`); Python strings are modelled as `String` / `List Char`; fallible
operations return `Option`.  Python dicts that preserve insertion order are
modelled as association lists.
-/

/-- ASCII decimal digit test: Python's `str.isdigit` character class for
ASCII input (`'0'` .. `'9'`). -/
def isDigitChar (c : Char) : Bool :=
  decide (48 ≤ c.toNat) && decide (c.toNat ≤ 57)

/-- ASCII uppercase letter test (`'A'` .. `'Z'`). -/
def isUpperChar (c : Char) : Bool :=
  decide (65 ≤ c.toNat) && decide (c.toNat ≤ 90)

/-- ASCII lowercase letter test (`'a'` .. `'z'`). -/
def isLowerChar (c : Char) : Bool :=
  decide (97 ≤ c.toNat) && decide (c.toNat ≤ 122)

/-- Whitespace as stripped by Python's `str.strip` (ASCII portion:
space, tab, newline, carriage return). -/
def isSpaceChar (c : Char) : Bool :=
  decide (c.toNat = 32) || decide (c.toNat = 9) ||
    decide (c.toNat = 10) || decide (c.toNat = 13)

/-- Python `str.strip`: drop leading and trailing whitespace characters. -/
def stripChars (l : List Char) : List Char :=
  ((l.dropWhile isSpaceChar).reverse.dropWhile isSpaceChar).reverse

/-- Value of a base-`b` digit list, most significant digit first. -/
def fromBase (b : Nat) (ds : List Nat) : Nat :=
  ds.foldl (fun acc d => acc * b + d) 0

/-- The `w` least significant base-`b` digits of `n`, most significant first
(zero padded on the left). -/
def natToBase (b : Nat) : Nat → Nat → List Nat
  | 0, _ => []
  | w + 1, n => natToBase b w (n / b) ++ [n % b]

/-- Character for a base-36 digit in the uppercase alphabet `0-9A-Z`. -/
def ucChar (d : Nat) : Char :=
  if d < 10 then Char.ofNat (48 + d) else Char.ofNat (55 + d)

/-- Character for a base-36 digit in the lowercase alphabet `0-9a-z`. -/
def lcChar (d : Nat) : Char :=
  if d < 10 then Char.ofNat (48 + d) else Char.ofNat (87 + d)

/-- Character for a decimal digit. -/
def decChar (d : Nat) : Char := Char.ofNat (48 + d)

/-- Numeric value of a decimal digit character. -/
def digitVal (c : Char) : Nat := c.toNat - 48

/-- Value of a character of the uppercase base-36 alphabet `0-9A-Z`,
`none` outside that alphabet. -/
def ucVal (c : Char) : Option Nat :=
  if isDigitChar c then some (c.toNat - 48)
  else if isUpperChar c then some (c.toNat - 55)
  else none

/-- Value of a character of the lowercase base-36 alphabet `0-9a-z`,
`none` outside that alphabet. -/
def lcVal (c : Char) : Option Nat :=
  if isDigitChar c then some (c.toNat - 48)
  else if isLowerChar c then some (c.toNat - 87)
  else none

/-- Map a digit-valuation over a character list, failing when any character
is outside the alphabet. -/
def mapOpt (f : Char → Option Nat) : List Char → Option (List Nat)
  | [] => some []
  | c :: cs =>
    match f c, mapOpt f cs with
    | some d, some ds => some (d :: ds)
    | _, _ => none

/-- Modelled from the spec: `int_2_h36` lives in `pdb2cif/pdb/utils.py`,
which `types.py` imports but which is not among the sources; the definition
follows the spec's encoding rule for the classic hybrid-36 scheme at width
`w`: plain zero-padded decimal below `10^w`; then an uppercase 26-letter
block (leading letter `'A' + m div 36^(w-1)`, the rest `m mod 36^(w-1)` in
the `0-9A-Z` alphabet); then the same with lowercase letters and the
`0-9a-z` alphabet; beyond `10^w + 52*36^(w-1)` encoding fails. -/
def int_2_h36 (number : Nat) (width : Nat) : Option String :=
  if number < 10 ^ width then
    some ⟨(natToBase 10 width number).map decChar⟩
  else if number < 10 ^ width + 26 * 36 ^ (width - 1) then
    some ⟨Char.ofNat (65 + (number - 10 ^ width) / 36 ^ (width - 1)) ::
      (natToBase 36 (width - 1)
        ((number - 10 ^ width) % 36 ^ (width - 1))).map ucChar⟩
  else if number < 10 ^ width + 52 * 36 ^ (width - 1) then
    some ⟨Char.ofNat (97 +
        (number - (10 ^ width + 26 * 36 ^ (width - 1))) / 36 ^ (width - 1)) ::
      (natToBase 36 (width - 1)
        ((number - (10 ^ width + 26 * 36 ^ (width - 1)))
          % 36 ^ (width - 1))).map lcChar⟩
  else none

/-- Modelled from the spec: `h36_2_int` lives in `pdb2cif/pdb/utils.py`,
which is not among the sources; the definition follows the spec's decoding
rule on an already stripped character list: if the string is entirely
decimal digits, parse as plain decimal; otherwise detect the case of the
leading character to select the 26-letter block, parse the remaining
characters as base 36 in that case's alphabet, and add the offset `10^w`
(respectively `10^w + 26*36^(w-1)`), where `w` is the full length;
decoding fails on characters outside the expected alphabet. -/
def h36_decode_core : List Char → Option Nat
  | [] => none
  | c :: rest =>
    if (c :: rest).all isDigitChar = true then
      some (fromBase 10 ((c :: rest).map digitVal))
    else if isUpperChar c then
      (mapOpt ucVal rest).map (fun ds =>
        (c.toNat - 65) * 36 ^ rest.length + fromBase 36 ds
          + 10 ^ (rest.length + 1))
    else if isLowerChar c then
      (mapOpt lcVal rest).map (fun ds =>
        (c.toNat - 97) * 36 ^ rest.length + fromBase 36 ds
          + 10 ^ (rest.length + 1) + 26 * 36 ^ rest.length)
    else none

/-- Modelled from the spec (see `h36_decode_core`): the decoder strips the
input and then applies the core decoding rule. -/
def h36_2_int (s : String) : Option Nat :=
  h36_decode_core (stripChars s.data)

/-- `Number.as_h36` (types.py line 37): delegates to the codec's
`int_2_h36` at the requested width. -/
def Number.as_h36 (n : Nat) (width : Nat) : Option String :=
  int_2_h36 n width

/-- `Number._convert_input` (types.py lines 22-32) on string input.  The
code calls `inpt.strip()` but discards the result; the test `inpt.isdigit()`
is applied to the unstripped string, digit strings parse as plain decimal,
anything else goes to the hybrid-36 decoder. -/
def Number.convert_input (s : String) : Option Nat :=
  if s.data ≠ [] ∧ s.data.all isDigitChar = true then
    some (fromBase 10 (s.data.map digitVal))
  else h36_2_int s

/-- `ChainID._convert_input` (types.py lines 131-141): the same body as
`Number._convert_input`, duplicated in the source. -/
def ChainID.convert_input (s : String) : Option Nat :=
  if s.data ≠ [] ∧ s.data.all isDigitChar = true then
    some (fromBase 10 (s.data.map digitVal))
  else h36_2_int s

/-- The identifier decoding rule as the spec words it (reference for C5):
strip leading/trailing whitespace first; if the remaining characters are
entirely decimal digits, parse them as plain decimal; otherwise decode the
remaining characters as a hybrid-36 string. -/
def convert_input_spec (s : String) : Option Nat :=
  if stripChars s.data ≠ [] ∧ (stripChars s.data).all isDigitChar = true then
    some (fromBase 10 ((stripChars s.data).map digitVal))
  else h36_decode_core (stripChars s.data)

/-- Python `str.ljust(w)` on a character list (spaces on the right; never
truncates). -/
def ljustL (w : Nat) (l : List Char) : List Char :=
  l ++ List.replicate (w - l.length) ' '

/-- Python `str.rjust(w)` on a character list (spaces on the left; never
truncates). -/
def rjustL (w : Nat) (l : List Char) : List Char :=
  List.replicate (w - l.length) ' ' ++ l

/-- Python `str.ljust(w)` on a `String`. -/
def ljustS (w : Nat) (s : String) : String := ⟨ljustL w s.data⟩

/-- Decimal digits of `n`, most significant first; `fuel` bounds the
recursion so the definition is structural. -/
def decDigitsAux : Nat → Nat → List Nat
  | 0, n => [n]
  | fuel + 1, n =>
    if n < 10 then [n] else decDigitsAux fuel (n / 10) ++ [n % 10]

/-- Decimal digits of `n`, most significant first, no leading zeros. -/
def decDigits (n : Nat) : List Nat := decDigitsAux n n

/-- Python `str(n)` for a natural number. -/
def pyStr (n : Nat) : String := ⟨(decDigits n).map decChar⟩

/-- `ChainID.as_pdb4namd` (types.py lines 143-146): `nlast` is the integer
value of the first character of `str(self.n)` (the code indexes `[0]`),
mapped through the fixed alphabet `"ABCDEFGHIJ"` and right-justified to
the requested width. -/
def ChainID.as_pdb4namd (n : Nat) (width : Nat) : List Char :=
  rjustL width ["ABCDEFGHIJ".data.getD (digitVal ((pyStr n).data.headD '0')) '?']

/-- The single-letter chain code as claim C4 words it: the least
significant decimal digit of `n + 1` mapped through `"ABCDEFGHIJ"`,
right-justified to the requested width. -/
def ChainID.as_pdb4namd_claim (n : Nat) (width : Nat) : List Char :=
  rjustL width ["ABCDEFGHIJ".data.getD ((n + 1) % 10) '?']

/-- The `AtomName.NAMD` legacy-to-canonical table (types.py lines 51-55). -/
def NAMD_atom : List (String × String) :=
  [("O1P", "OP1"), ("O2P", "OP2"), ("C5M", "C7")]

/-- Association-list lookup keyed by strings (a Python dict read). -/
def slookup (k : String) : List (String × String) → Option String
  | [] => none
  | p :: ps => if p.1 = k then some p.2 else slookup k ps

/-- The inverted table `DMNA = {v: k for k, v in NAMD}` (types.py line 71). -/
def DMNA_atom : List (String × String) :=
  NAMD_atom.map (fun p => (p.2, p.1))

/-- The legacy spelling of a canonical atom name: `DMNA[opt]` when present,
else the name itself (types.py line 72). -/
def AtomName.legacy (name : String) : List Char :=
  ((slookup name DMNA_atom).getD name).data

/-- `AtomName.as_pdb4namd` (types.py lines 69-78): invert the table, then
pad by length: a 1-character name is `ljust(2)`-ed then right-justified, a
2-character name is `ljust(1)`-ed (which changes nothing) then
right-justified, anything else is right-justified as is. -/
def AtomName.as_pdb4namd (name : String) (width : Nat) : List Char :=
  if (AtomName.legacy name).length = 1 then
    rjustL width (ljustL 2 (AtomName.legacy name))
  else if (AtomName.legacy name).length = 2 then
    rjustL width (ljustL 1 (AtomName.legacy name))
  else rjustL width (AtomName.legacy name)

/-- The legacy atom-name padding as claim C9 words it: a 1-character name
gets one trailing space before right-justification, a 2-character name gets
one trailing space, and longer names are right-justified unchanged. -/
def AtomName.as_pdb4namd_claim (name : String) (width : Nat) : List Char :=
  if (AtomName.legacy name).length = 1 then
    rjustL width (ljustL 2 (AtomName.legacy name))
  else if (AtomName.legacy name).length = 2 then
    rjustL width (AtomName.legacy name ++ [' '])
  else rjustL width (AtomName.legacy name)

/-- The `ResName.NAMD` legacy-to-canonical residue table (types.py lines
96-101). -/
def NAMD_res : List (String × String) :=
  [("CYT", "DC"), ("GUA", "DG"), ("THY", "DT"), ("ADE", "DA")]

/-- `ResName._convert_input` (types.py lines 104-110): strip, then remove
every `'5'` when one occurs, else remove every `'3'` when one occurs, then
look the result up in the table (pass through when absent). -/
def ResName.convert_input (s : String) : String :=
  let t := stripChars s.data
  let t2 := if t.contains '5' then t.filter (fun c => !(c == '5'))
    else if t.contains '3' then t.filter (fun c => !(c == '3'))
    else t
  (slookup ⟨t2⟩ NAMD_res).getD ⟨t2⟩

/-- The staple test of `CIF._write_entity` and `CIF._write_entity_src`
(files.py lines 112 and 122): a chain is a staple when its recorded
maximum residue number is below 500. -/
def is_staple (length : Nat) : Bool := decide (length < 500)

/-- One line of the entity block (files.py lines 111-116). -/
def entityLine (chain_id length : Nat) : String :=
  ljustS 4 (pyStr chain_id) ++ " polymer " ++
    (if is_staple length then "syn" else "?  ") ++ " " ++
    (if is_staple length then "'STAPLE STRAND'  " else "'SCAFFOLD STRAND'") ++
    " ?   1 ? ? ? ?\n"

/-- One line of the entity_src block (files.py lines 121-126). -/
def entitySrcLine (chain_id length : Nat) : String :=
  ljustS 4 (pyStr chain_id) ++ "   1 sample 1 " ++ ljustS 5 (pyStr length) ++
    " " ++
    (if is_staple length then "'synthetic construct'" else ljustS 21 "?") ++
    " ? " ++ (if is_staple length then "32630" else ljustS 5 "?") ++ " ?\n"

/-- The per-chain lines of `CIF._write_entity` (files.py lines 108-116);
the static template preamble is an opaque asset outside the core. -/
def write_entity (chains : List (Nat × Nat)) : List String :=
  chains.map (fun p => entityLine p.1 p.2)

/-- The per-chain lines of `CIF._write_entity_src` (files.py lines
118-126). -/
def write_entity_src (chains : List (Nat × Nat)) : List String :=
  chains.map (fun p => entitySrcLine p.1 p.2)

/-- One atom record as `CIF._get_chains_seqs` reads it: canonical atom
name (`atom_name.as_str()`), canonical residue name, chain number
(`chain_id.n`) and residue number (`res_number.n`); the record's other
fields play no role in the aggregator. -/
structure Atom where
  atom_name : String
  res_name : String
  chain_id : Nat
  res_number : Nat
deriving DecidableEq

/-- Association-list lookup keyed by `Nat` (an ordered-dict read). -/
def alookup {β : Type} (k : Nat) : List (Nat × β) → Option β
  | [] => none
  | p :: ps => if p.1 = k then some p.2 else alookup k ps

/-- Ordered-dict write to an existing key: replace the value in place,
keeping insertion order. -/
def aset {β : Type} (l : List (Nat × β)) (k : Nat) (v : β) : List (Nat × β) :=
  l.map (fun p => if p.1 = k then (k, v) else p)

/-- The `chains` update of one `for a in C3ps` iteration (files.py lines
81-84): insert on first appearance, else keep the larger residue number. -/
def chainsStep (chains : List (Nat × Nat)) (a : Atom) : List (Nat × Nat) :=
  match alookup a.chain_id chains with
  | none => chains ++ [(a.chain_id, a.res_number)]
  | some cur =>
    if cur < a.res_number then aset chains a.chain_id a.res_number else chains

/-- The `seqs` update of one `for a in C3ps` iteration (files.py lines
86-89): insert a singleton on first appearance, else append the residue
name. -/
def seqsStep (seqs : List (Nat × List String)) (a : Atom) :
    List (Nat × List String) :=
  match alookup a.chain_id seqs with
  | none => seqs ++ [(a.chain_id, [a.res_name])]
  | some s => aset seqs a.chain_id (s ++ [a.res_name])

/-- One full iteration of the `for a in C3ps` loop: both dicts advance. -/
def chainsSeqsStep (st : List (Nat × Nat) × List (Nat × List String))
    (a : Atom) : List (Nat × Nat) × List (Nat × List String) :=
  (chainsStep st.1 a, seqsStep st.2 a)

/-- The anchor filter of `CIF._get_chains_seqs` (files.py line 76): keep
the atoms whose canonical atom name is the third-carbon backbone atom. -/
def anchors (atoms : List Atom) : List Atom :=
  atoms.filter (fun a => a.atom_name == "C3'")

/-- `CIF._get_chains_seqs` (files.py lines 73-91): fold the anchor atoms
in document order through both dict updates, starting from empty dicts. -/
def get_chains_seqs (atoms : List Atom) :
    List (Nat × Nat) × List (Nat × List String) :=
  (anchors atoms).foldl chainsSeqsStep ([], [])

/-- The running-maximum accumulator of the `chains` dict, per chain. -/
def maxUpd (o : Option Nat) (r : Nat) : Option Nat :=
  match o with
  | none => some r
  | some m => some (max m r)

/-- The appending accumulator of the `seqs` dict, per chain. -/
def seqUpd (o : Option (List String)) (r : String) : Option (List String) :=
  match o with
  | none => some [r]
  | some s => some (s ++ [r])

/-- Ordered-dict key insertion: append the key on first appearance. -/
def keyInsert (ks : List Nat) (x : Nat) : List Nat :=
  if x ∈ ks then ks else ks ++ [x]

/-- The keys of a sequence in order of first appearance. -/
def firstOccs : List Nat → List Nat
  | [] => []
  | x :: xs => x :: (firstOccs xs).filter (fun y => !(y == x))

/-- A small concrete structure for witnesses: chain 1 holds residues 1 and
2 (three, respectively two, atoms but a single C3' anchor each), chain 2
holds one residue numbered 500. -/
def testAtoms : List Atom :=
  [⟨"C3'", "DC", 1, 1⟩, ⟨"P", "DC", 1, 1⟩, ⟨"O5'", "DC", 1, 1⟩,
   ⟨"C3'", "DG", 1, 2⟩, ⟨"P", "DG", 1, 2⟩, ⟨"C3'", "DT", 2, 500⟩]

theorem length_natToBase (b w n : Nat) : (natToBase b w n).length = w := by
  induction w generalizing n with
  | zero => rfl
  | succ w ih => simp [natToBase, ih]

theorem natToBase_lt (b : Nat) (hb : 0 < b) (w n : Nat) :
    ∀ d ∈ natToBase b w n, d < b := by
  induction w generalizing n with
  | zero => simp [natToBase]
  | succ w ih =>
    intro d hd
    simp only [natToBase, List.mem_append, List.mem_singleton] at hd
    rcases hd with hd | hd
    · exact ih _ d hd
    · subst hd; exact Nat.mod_lt _ hb

theorem fromBase_append (b : Nat) (l : List Nat) (d : Nat) :
    fromBase b (l ++ [d]) = fromBase b l * b + d := by
  simp [fromBase, List.foldl_append]

theorem fromBase_natToBase (b w n : Nat) :
    fromBase b (natToBase b w n) = n % b ^ w := by
  induction w generalizing n with
  | zero => simp [natToBase, fromBase, Nat.mod_one]
  | succ w ih =>
    rw [natToBase, fromBase_append, ih, pow_succ', Nat.mod_mul]
    ring

theorem ucVal_ucChar : ∀ d, d < 36 → ucVal (ucChar d) = some d := by decide

theorem lcVal_lcChar : ∀ d, d < 36 → lcVal (lcChar d) = some d := by decide

theorem digitVal_decChar : ∀ d, d < 10 → digitVal (decChar d) = d := by decide

theorem isDigit_decChar : ∀ d, d < 10 → isDigitChar (decChar d) = true := by decide

theorem notSpace_decChar : ∀ d, d < 10 → isSpaceChar (decChar d) = false := by decide

theorem notSpace_ucChar : ∀ d, d < 36 → isSpaceChar (ucChar d) = false := by decide

theorem notSpace_lcChar : ∀ d, d < 36 → isSpaceChar (lcChar d) = false := by decide

theorem upperLetter_facts : ∀ q, q < 26 →
    isUpperChar (Char.ofNat (65 + q)) = true ∧
    isDigitChar (Char.ofNat (65 + q)) = false ∧
    isSpaceChar (Char.ofNat (65 + q)) = false ∧
    (Char.ofNat (65 + q)).toNat = 65 + q := by decide

theorem lowerLetter_facts : ∀ q, q < 26 →
    isLowerChar (Char.ofNat (97 + q)) = true ∧
    isUpperChar (Char.ofNat (97 + q)) = false ∧
    isDigitChar (Char.ofNat (97 + q)) = false ∧
    isSpaceChar (Char.ofNat (97 + q)) = false ∧
    (Char.ofNat (97 + q)).toNat = 97 + q := by decide

theorem digit_not_space (c : Char) (h : isDigitChar c = true) :
    isSpaceChar c = false := by
  simp only [isDigitChar, Bool.and_eq_true, decide_eq_true_eq] at h
  simp only [isSpaceChar, Bool.or_eq_false_iff, decide_eq_false_iff_not]
  omega

theorem mapOpt_map (f : Char → Option Nat) (g : Nat → Char) (ds : List Nat)
    (h : ∀ d ∈ ds, f (g d) = some d) : mapOpt f (ds.map g) = some ds := by
  induction ds with
  | nil => rfl
  | cons d tl ih =>
    have hd := h d (by simp)
    have htl := ih (fun x hx => h x (by simp [hx]))
    simp [mapOpt, hd, htl]

theorem dropWhile_of_none (p : Char → Bool) (l : List Char)
    (h : ∀ c ∈ l, p c = false) : l.dropWhile p = l := by
  cases l with
  | nil => rfl
  | cons c tl => simp [List.dropWhile_cons, h c (by simp)]

theorem stripChars_of_none (l : List Char)
    (h : ∀ c ∈ l, isSpaceChar c = false) : stripChars l = l := by
  unfold stripChars
  rw [dropWhile_of_none _ _ h, dropWhile_of_none, List.reverse_reverse]
  intro c hc
  exact h c (List.mem_reverse.mp hc)

theorem h36_roundtrip_decimal (w n : Nat) (hw : 1 ≤ w) (hn : n < 10 ^ w) :
    int_2_h36 n w = some ⟨(natToBase 10 w n).map decChar⟩ ∧
    h36_2_int ⟨(natToBase 10 w n).map decChar⟩ = some n ∧
    ((natToBase 10 w n).map decChar).all isDigitChar = true := by
  have hdig : ∀ c ∈ (natToBase 10 w n).map decChar, isDigitChar c = true := by
    intro c hc
    rcases List.mem_map.mp hc with ⟨d, hd, rfl⟩
    exact isDigit_decChar d (natToBase_lt 10 (by norm_num) w n d hd)
  have hall : ((natToBase 10 w n).map decChar).all isDigitChar = true :=
    List.all_eq_true.mpr hdig
  have hne : (natToBase 10 w n).map decChar ≠ [] := by
    have hlen : ((natToBase 10 w n).map decChar).length = w := by
      simp [length_natToBase]
    intro h
    rw [h] at hlen
    simp at hlen
    omega
  refine ⟨by rw [int_2_h36, if_pos hn], ?_, hall⟩
  have hstrip : stripChars ((natToBase 10 w n).map decChar) =
      (natToBase 10 w n).map decChar :=
    stripChars_of_none _ (fun c hc => digit_not_space c (hdig c hc))
  show h36_decode_core (stripChars ((natToBase 10 w n).map decChar)) = some n
  rw [hstrip]
  cases hsh : (natToBase 10 w n).map decChar with
  | nil => exact absurd hsh hne
  | cons c tl =>
    rw [hsh] at hall
    rw [h36_decode_core, if_pos hall, ← hsh, List.map_map]
    have hid : (natToBase 10 w n).map (digitVal ∘ decChar) = natToBase 10 w n := by
      have h1 : (natToBase 10 w n).map (digitVal ∘ decChar) =
          (natToBase 10 w n).map id :=
        List.map_congr_left
          (fun d hd => digitVal_decChar d (natToBase_lt 10 (by norm_num) w n d hd))
      rw [h1, List.map_id]
    rw [hid, fromBase_natToBase, Nat.mod_eq_of_lt hn]

theorem h36_roundtrip_upper (w n : Nat) (hw : 1 ≤ w) (h1 : 10 ^ w ≤ n)
    (h2 : n < 10 ^ w + 26 * 36 ^ (w - 1)) :
    int_2_h36 n w = some ⟨Char.ofNat (65 + (n - 10 ^ w) / 36 ^ (w - 1)) ::
      (natToBase 36 (w - 1) ((n - 10 ^ w) % 36 ^ (w - 1))).map ucChar⟩ ∧
    h36_2_int ⟨Char.ofNat (65 + (n - 10 ^ w) / 36 ^ (w - 1)) ::
      (natToBase 36 (w - 1) ((n - 10 ^ w) % 36 ^ (w - 1))).map ucChar⟩
      = some n := by
  have hX : 0 < 36 ^ (w - 1) := pow_pos (by norm_num) (w - 1)
  have hq : (n - 10 ^ w) / 36 ^ (w - 1) < 26 :=
    (Nat.div_lt_iff_lt_mul hX).mpr (by omega)
  obtain ⟨hCu, hCd, hCs, hCt⟩ := upperLetter_facts _ hq
  have hds_lt : ∀ d ∈ natToBase 36 (w - 1) ((n - 10 ^ w) % 36 ^ (w - 1)),
      d < 36 := natToBase_lt 36 (by norm_num) _ _
  constructor
  · rw [int_2_h36, if_neg (by omega), if_pos h2]
  · have hnos : ∀ c ∈ Char.ofNat (65 + (n - 10 ^ w) / 36 ^ (w - 1)) ::
        (natToBase 36 (w - 1) ((n - 10 ^ w) % 36 ^ (w - 1))).map ucChar,
        isSpaceChar c = false := by
      intro c hc
      rcases List.mem_cons.mp hc with rfl | hc
      · exact hCs
      · rcases List.mem_map.mp hc with ⟨d, hd, rfl⟩
        exact notSpace_ucChar d (hds_lt d hd)
    show h36_decode_core (stripChars _) = some n
    rw [stripChars_of_none _ hnos, h36_decode_core,
      if_neg (by simp [List.all_cons, hCd]), if_pos hCu,
      mapOpt_map ucVal ucChar _ (fun d hd => ucVal_ucChar d (hds_lt d hd)),
      Option.map_some', List.length_map, length_natToBase, hCt,
      fromBase_natToBase, Nat.mod_mod_of_dvd _ dvd_rfl,
      Nat.add_sub_cancel_left]
    have hw1 : w - 1 + 1 = w := by omega
    rw [hw1, Nat.div_add_mod']
    congr 1
    omega

theorem h36_roundtrip_lower (w n : Nat) (hw : 1 ≤ w)
    (h1 : 10 ^ w + 26 * 36 ^ (w - 1) ≤ n)
    (h2 : n < 10 ^ w + 52 * 36 ^ (w - 1)) :
    int_2_h36 n w = some ⟨Char.ofNat (97 +
        (n - (10 ^ w + 26 * 36 ^ (w - 1))) / 36 ^ (w - 1)) ::
      (natToBase 36 (w - 1)
        ((n - (10 ^ w + 26 * 36 ^ (w - 1))) % 36 ^ (w - 1))).map lcChar⟩ ∧
    h36_2_int ⟨Char.ofNat (97 +
        (n - (10 ^ w + 26 * 36 ^ (w - 1))) / 36 ^ (w - 1)) ::
      (natToBase 36 (w - 1)
        ((n - (10 ^ w + 26 * 36 ^ (w - 1))) % 36 ^ (w - 1))).map lcChar⟩
      = some n := by
  have hX : 0 < 36 ^ (w - 1) := pow_pos (by norm_num) (w - 1)
  have hq : (n - (10 ^ w + 26 * 36 ^ (w - 1))) / 36 ^ (w - 1) < 26 :=
    (Nat.div_lt_iff_lt_mul hX).mpr (by omega)
  obtain ⟨hCl, hCnu, hCd, hCs, hCt⟩ := lowerLetter_facts _ hq
  have hds_lt : ∀ d ∈ natToBase 36 (w - 1)
      ((n - (10 ^ w + 26 * 36 ^ (w - 1))) % 36 ^ (w - 1)), d < 36 :=
    natToBase_lt 36 (by norm_num) _ _
  constructor
  · rw [int_2_h36, if_neg (by omega), if_neg (by omega), if_pos h2]
  · have hnos : ∀ c ∈ Char.ofNat (97 +
        (n - (10 ^ w + 26 * 36 ^ (w - 1))) / 36 ^ (w - 1)) ::
        (natToBase 36 (w - 1)
          ((n - (10 ^ w + 26 * 36 ^ (w - 1))) % 36 ^ (w - 1))).map lcChar,
        isSpaceChar c = false := by
      intro c hc
      rcases List.mem_cons.mp hc with rfl | hc
      · exact hCs
      · rcases List.mem_map.mp hc with ⟨d, hd, rfl⟩
        exact notSpace_lcChar d (hds_lt d hd)
    show h36_decode_core (stripChars _) = some n
    rw [stripChars_of_none _ hnos, h36_decode_core,
      if_neg (by simp [List.all_cons, hCd]), if_neg (by simp [hCnu]),
      if_pos hCl,
      mapOpt_map lcVal lcChar _ (fun d hd => lcVal_lcChar d (hds_lt d hd)),
      Option.map_some', List.length_map, length_natToBase, hCt,
      fromBase_natToBase, Nat.mod_mod_of_dvd _ dvd_rfl,
      Nat.add_sub_cancel_left]
    have hw1 : w - 1 + 1 = w := by omega
    rw [hw1, Nat.div_add_mod']
    congr 1
    omega

theorem string_mk_length (l : List Char) : (⟨l⟩ : String).length = l.length :=
  rfl

/-- C1: hybrid-36 round trip. For every width `w ≥ 1` and every `n` with
`n < 10^w + 52*36^(w-1)`, encoding `n` at width `w` succeeds with a string
of exactly `w` characters which decodes back to `n`; below `10^w` the
string is plain decimal digits, and in the hybrid range the leading
character is an uppercase letter in the first 26-letter block and a
lowercase letter in the second. -/
theorem h36_roundtrip (w n : Nat) (hw : 1 ≤ w)
    (hn : n < 10 ^ w + 52 * 36 ^ (w - 1)) :
    ∃ s : String, Number.as_h36 n w = some s ∧ s.length = w ∧
      h36_2_int s = some n ∧
      (n < 10 ^ w → s.data.all isDigitChar = true) ∧
      (10 ^ w ≤ n → n < 10 ^ w + 26 * 36 ^ (w - 1) →
        ∃ c rest, s.data = c :: rest ∧ isUpperChar c = true) ∧
      (10 ^ w + 26 * 36 ^ (w - 1) ≤ n →
        ∃ c rest, s.data = c :: rest ∧ isLowerChar c = true) := by
  rcases Nat.lt_or_ge n (10 ^ w) with hlt | hge
  · obtain ⟨henc, hdec, hall⟩ := h36_roundtrip_decimal w n hw hlt
    refine ⟨⟨(natToBase 10 w n).map decChar⟩, henc, ?_, hdec,
      fun _ => hall, ?_, ?_⟩
    · rw [string_mk_length]
      simp [length_natToBase]
    · intro h _
      omega
    · intro h
      omega
  · rcases Nat.lt_or_ge n (10 ^ w + 26 * 36 ^ (w - 1)) with hmid | hhi
    · obtain ⟨henc, hdec⟩ := h36_roundtrip_upper w n hw hge hmid
      refine ⟨_, henc, ?_, hdec, ?_, ?_, ?_⟩
      · rw [string_mk_length]
        simp only [List.length_cons, List.length_map, length_natToBase]
        omega
      · intro h
        omega
      · intro _ _
        refine ⟨_, _, rfl, ?_⟩
        have hX : 0 < 36 ^ (w - 1) := pow_pos (by norm_num) (w - 1)
        have hq : (n - 10 ^ w) / 36 ^ (w - 1) < 26 :=
          (Nat.div_lt_iff_lt_mul hX).mpr (by omega)
        exact (upperLetter_facts _ hq).1
      · intro h
        omega
    · obtain ⟨henc, hdec⟩ := h36_roundtrip_lower w n hw hhi hn
      refine ⟨_, henc, ?_, hdec, ?_, ?_, ?_⟩
      · rw [string_mk_length]
        simp only [List.length_cons, List.length_map, length_natToBase]
        omega
      · intro h
        omega
      · intro _ h
        omega
      · intro _
        refine ⟨_, _, rfl, ?_⟩
        have hX : 0 < 36 ^ (w - 1) := pow_pos (by norm_num) (w - 1)
        have hq : (n - (10 ^ w + 26 * 36 ^ (w - 1))) / 36 ^ (w - 1) < 26 :=
          (Nat.div_lt_iff_lt_mul hX).mpr (by omega)
        exact (lowerLetter_facts _ hq).1

/-- Witness for C1: the round trip instantiated at width 4 and `n = 10035`. -/
theorem h36_roundtrip_witness : ∃ s : String,
    Number.as_h36 10035 4 = some s ∧ s.length = 4 ∧
    h36_2_int s = some 10035 ∧
    (10035 < 10 ^ 4 → s.data.all isDigitChar = true) ∧
    (10 ^ 4 ≤ 10035 → 10035 < 10 ^ 4 + 26 * 36 ^ (4 - 1) →
      ∃ c rest, s.data = c :: rest ∧ isUpperChar c = true) ∧
    (10 ^ 4 + 26 * 36 ^ (4 - 1) ≤ 10035 →
      ∃ c rest, s.data = c :: rest ∧ isLowerChar c = true) :=
  h36_roundtrip 4 10035 (by norm_num) (by norm_num)

/-- C2: upper-bound rejection. For every width `w` and every
`n ≥ 10^w + 52*36^(w-1)`, encoding fails (`none`): the value is never
wrapped or truncated to `w` characters. -/
theorem h36_upper_bound_rejected (w n : Nat)
    (hn : 10 ^ w + 52 * 36 ^ (w - 1) ≤ n) :
    Number.as_h36 n w = none := by
  rw [Number.as_h36, int_2_h36, if_neg (by omega), if_neg (by omega),
    if_neg (by omega)]

/-- Witness for C2: the first unrepresentable value at width 4,
`10^4 + 52*36^3 = 2436112`, is rejected. -/
theorem h36_upper_bound_rejected_witness : Number.as_h36 2436112 4 = none :=
  h36_upper_bound_rejected 4 2436112 (by norm_num)

/-- C3: the width-4 worked examples of the hybrid-36 encoder. -/
theorem h36_width4_examples :
    Number.as_h36 0 4 = some "0000" ∧
    Number.as_h36 9999 4 = some "9999" ∧
    Number.as_h36 10000 4 = some "A000" ∧
    Number.as_h36 (10000 + 35) 4 = some "A00Z" ∧
    Number.as_h36 (10000 + 26 * 36 ^ 3) 4 = some "a000" := by
  decide

/-- C6: residue-name terminus stripping.  The normalizer checks for the
digit 5 before the digit 3 and strips the marker before table lookup:
"CYT5" and "CYT3" both normalize to "DC", the GUA/THY/ADE variants map to
DG/DT/DA, and on "CYT53" the 5-test fires first (only the 5 is removed). -/
theorem resName_terminus_stripping :
    ResName.convert_input "CYT5" = "DC" ∧
    ResName.convert_input "CYT3" = "DC" ∧
    ResName.convert_input "GUA5" = "DG" ∧
    ResName.convert_input "GUA3" = "DG" ∧
    ResName.convert_input "THY5" = "DT" ∧
    ResName.convert_input "THY3" = "DT" ∧
    ResName.convert_input "ADE5" = "DA" ∧
    ResName.convert_input "ADE3" = "DA" ∧
    ResName.convert_input "CYT53" = "CYT3" := by decide

theorem decDigitsAux_ne_nil (fuel n : Nat) : decDigitsAux fuel n ≠ [] := by
  cases fuel with
  | zero => simp [decDigitsAux]
  | succ f =>
    by_cases h : n < 10
    · simp [decDigitsAux, h]
    · simp [decDigitsAux, h]

theorem decDigitsAux_head (fuel n k : Nat) (hf : n ≤ fuel)
    (h1 : 10 ^ k ≤ n) (h2 : n < 10 ^ (k + 1)) :
    (decDigitsAux fuel n).head? = some (n / 10 ^ k) := by
  induction fuel generalizing n k with
  | zero =>
    exfalso
    have : 0 < 10 ^ k := pow_pos (by norm_num) k
    omega
  | succ f ih =>
    by_cases h : n < 10
    · have hk : k = 0 := by
        by_contra hk
        have h10 : (10 : Nat) ≤ 10 ^ k := by
          calc (10 : Nat) = 10 ^ 1 := by norm_num
          _ ≤ 10 ^ k := Nat.pow_le_pow_right (by norm_num) (by omega)
        omega
      subst hk
      simp [decDigitsAux, h]
    · rw [decDigitsAux, if_neg h]
      cases k with
      | zero =>
        exfalso
        have hpow : (10 : Nat) ^ (0 + 1) = 10 := by norm_num
        omega
      | succ j =>
        have hf' : n / 10 ≤ f := by
          have := Nat.div_lt_self (by omega : 0 < n) (by norm_num : 1 < 10)
          omega
        have h1' : 10 ^ j ≤ n / 10 := by
          rw [Nat.le_div_iff_mul_le (by norm_num)]
          calc 10 ^ j * 10 = 10 ^ (j + 1) := (pow_succ 10 j).symm
          _ ≤ n := h1
        have h2' : n / 10 < 10 ^ (j + 1) := by
          rw [Nat.div_lt_iff_lt_mul (by norm_num)]
          calc n < 10 ^ (j + 1 + 1) := h2
          _ = 10 ^ (j + 1) * 10 := pow_succ 10 (j + 1)
        rw [List.head?_append, ih (n / 10) j hf' h1' h2']
        show some (n / 10 / 10 ^ j) = some (n / 10 ^ (j + 1))
        rw [Nat.div_div_eq_div_mul, ← pow_succ']

/-- C4 counterexample: for chain number 12 at width 1 the code produces
"B" (from the leading digit 1 of `str(12)`), while the claim's rule (least
significant digit of 12 + 1 = 13 through "ABCDEFGHIJ") produces "D". -/
theorem chainID_pdb4namd_claim_ce :
    ChainID.as_pdb4namd 12 1 ≠ ChainID.as_pdb4namd_claim 12 1 ∧
    ChainID.as_pdb4namd 12 1 = ['B'] ∧
    ChainID.as_pdb4namd_claim 12 1 = ['D'] := by decide

/-- C4 amended: the legacy chain label maps the MOST significant (leading)
decimal digit of the chain number `n` itself through the fixed alphabet
"ABCDEFGHIJ" and right-justifies it to the requested width: whenever
`10^k ≤ n < 10^(k+1)` the label character is `"ABCDEFGHIJ"[n / 10^k]`. -/
theorem chainID_pdb4namd_leading_digit (n width k : Nat) (h1 : 10 ^ k ≤ n)
    (h2 : n < 10 ^ (k + 1)) :
    ChainID.as_pdb4namd n width =
      rjustL width ["ABCDEFGHIJ".data.getD (n / 10 ^ k) '?'] := by
  have hd : (decDigits n).head? = some (n / 10 ^ k) :=
    decDigitsAux_head n n k le_rfl h1 h2
  have hdiglt : n / 10 ^ k < 10 := by
    rw [Nat.div_lt_iff_lt_mul (pow_pos (by norm_num) k)]
    have hp : (10 : Nat) ^ (k + 1) = 10 ^ k * 10 := pow_succ 10 k
    omega
  have hhd : ((pyStr n).data.headD '0') = decChar (n / 10 ^ k) := by
    show (((decDigits n).map decChar).headD '0') = _
    rw [List.headD_eq_head?, List.head?_map, hd]
    rfl
  rw [ChainID.as_pdb4namd, hhd, digitVal_decChar _ hdiglt]

/-- Witness for the amended C4: chain number 12 (two digits, leading digit
1) at width 1. -/
theorem chainID_pdb4namd_leading_digit_witness :
    ChainID.as_pdb4namd 12 1 =
      rjustL 1 ["ABCDEFGHIJ".data.getD (12 / 10 ^ 1) '?'] :=
  chainID_pdb4namd_leading_digit 12 1 1 (by norm_num) (by norm_num)

/-- C9 counterexample: for the canonical two-character name "CA" at width
4 the code right-justifies with no trailing space ("  CA"), while the
claim's padding rule adds one trailing space (" CA "). -/
theorem atomName_pdb4namd_claim_ce :
    AtomName.as_pdb4namd "CA" 4 ≠ AtomName.as_pdb4namd_claim "CA" 4 ∧
    AtomName.as_pdb4namd "CA" 4 = "  CA".data ∧
    AtomName.as_pdb4namd_claim "CA" 4 = " CA ".data := by decide

/-- C9 amended: legacy atom-name rendering inverts the table and
right-justifies to the width; only a 1-character legacy name gets a
trailing space first (the `ljust(1)` applied to 2-character names is a
no-op, so they receive no padding tweak, like names of 3 or more
characters). -/
theorem atomName_pdb4namd_padding (name : String) (width : Nat) :
    AtomName.as_pdb4namd name width =
      rjustL width (if (AtomName.legacy name).length = 1
        then ljustL 2 (AtomName.legacy name) else AtomName.legacy name) := by
  by_cases h1 : (AtomName.legacy name).length = 1
  · rw [AtomName.as_pdb4namd, if_pos h1, if_pos h1]
  · by_cases h2 : (AtomName.legacy name).length = 2
    · have hlj : ljustL 1 (AtomName.legacy name) = AtomName.legacy name := by
        rw [ljustL, h2]
        simp
      rw [AtomName.as_pdb4namd, if_neg h1, if_pos h2, hlj, if_neg h1]
    · rw [AtomName.as_pdb4namd, if_neg h1, if_neg h2, if_neg h1]

/-- C7: staple/scaffold classification boundary.  A chain is a staple
exactly when its maximum residue number is strictly below 500 (499 is a
staple, 500 a scaffold), and the entity and entity_src blocks apply the
same test: staples get src "syn", type STAPLE STRAND, organism
"synthetic construct" and taxonomy id 32630, scaffolds get SCAFFOLD
STRAND and unknown-field placeholders. -/
theorem cif_entity_staple_classification (cid len : Nat) :
    (is_staple len = true ↔ len < 500) ∧
    (len < 500 →
      entityLine cid len = ljustS 4 (pyStr cid) ++
        " polymer syn 'STAPLE STRAND'   ?   1 ? ? ? ?\n" ∧
      entitySrcLine cid len = ljustS 4 (pyStr cid) ++ "   1 sample 1 " ++
        ljustS 5 (pyStr len) ++ " 'synthetic construct' ? 32630 ?\n") ∧
    (500 ≤ len →
      entityLine cid len = ljustS 4 (pyStr cid) ++
        " polymer ?   'SCAFFOLD STRAND' ?   1 ? ? ? ?\n" ∧
      entitySrcLine cid len = ljustS 4 (pyStr cid) ++ "   1 sample 1 " ++
        ljustS 5 (pyStr len) ++ " ?                     ? ?     ?\n") := by
  refine ⟨by simp [is_staple], fun h => ?_, fun h => ?_⟩
  · have hs : is_staple len = true := by simp [is_staple, h]
    constructor
    · simp [entityLine, hs, String.append_assoc]
    · simp [entitySrcLine, hs, String.append_assoc]
  · have hs : is_staple len = false := by
      simp only [is_staple, decide_eq_false_iff_not]
      omega
    constructor
    · simp [entityLine, hs, String.append_assoc]
    · simp [entitySrcLine, hs, ljustS, ljustL, String.append_assoc]

/-- Witness for C7: the boundary chains, length 499 (staple form) and
length 500 (scaffold form). -/
theorem cif_entity_staple_classification_witness :
    entityLine 1 499 = ljustS 4 (pyStr 1) ++
      " polymer syn 'STAPLE STRAND'   ?   1 ? ? ? ?\n" ∧
    entitySrcLine 1 500 = ljustS 4 (pyStr 1) ++ "   1 sample 1 " ++
      ljustS 5 (pyStr 500) ++ " ?                     ? ?     ?\n" :=
  ⟨((cif_entity_staple_classification 1 499).2.1 (by norm_num)).1,
   ((cif_entity_staple_classification 1 500).2.2 (by norm_num)).2⟩

theorem string_mk_data (l : List Char) : (⟨l⟩ : String).data = l := rfl

theorem convert_input_eq_spec (s : String) :
    Number.convert_input s = convert_input_spec s := by
  by_cases h : s.data ≠ [] ∧ s.data.all isDigitChar = true
  · have hstrip : stripChars s.data = s.data :=
      stripChars_of_none _
        (fun c hc => digit_not_space c (List.all_eq_true.mp h.2 c hc))
    rw [Number.convert_input, if_pos h, convert_input_spec]
    simp only [hstrip]
    rw [if_pos h]
  · rw [Number.convert_input, if_neg h, convert_input_spec, h36_2_int]
    by_cases h2 : stripChars s.data ≠ [] ∧
        (stripChars s.data).all isDigitChar = true
    · rw [if_pos h2]
      obtain ⟨hne, hall⟩ := h2
      cases hsh : stripChars s.data with
      | nil => exact absurd hsh hne
      | cons c tl =>
        rw [hsh] at hall
        rw [h36_decode_core, if_pos hall]
    · rw [if_neg h2]

theorem dropWhile_replicate_space (a : Nat) (l : List Char) :
    (List.replicate a ' ' ++ l).dropWhile isSpaceChar =
      l.dropWhile isSpaceChar := by
  induction a with
  | zero => simp
  | succ a ih =>
    have hsp : isSpaceChar ' ' = true := by decide
    rw [List.replicate_succ, List.cons_append, List.dropWhile_cons, hsp,
      if_pos rfl, ih]

theorem stripChars_pad (s : List Char) (a b : Nat) (hne : s ≠ [])
    (hall : s.all isDigitChar = true) :
    stripChars (List.replicate a ' ' ++ s ++ List.replicate b ' ') = s := by
  have hnos : ∀ c ∈ s, isSpaceChar c = false := fun c hc =>
    digit_not_space c (List.all_eq_true.mp hall c hc)
  obtain ⟨c, tl, rfl⟩ : ∃ c tl, s = c :: tl := by
    cases s with
    | nil => exact absurd rfl hne
    | cons c tl => exact ⟨c, tl, rfl⟩
  have h1 : (List.replicate a ' ' ++ (c :: tl) ++
      List.replicate b ' ').dropWhile isSpaceChar =
      c :: (tl ++ List.replicate b ' ') := by
    rw [List.append_assoc, dropWhile_replicate_space, List.cons_append,
      List.dropWhile_cons, hnos c (by simp)]
    simp
  have h2 : (c :: (tl ++ List.replicate b ' ')).reverse =
      List.replicate b ' ' ++ (tl.reverse ++ [c]) := by
    rw [List.reverse_cons, List.reverse_append, List.reverse_replicate,
      List.append_assoc]
  have h3 : (List.replicate b ' ' ++
      (tl.reverse ++ [c])).dropWhile isSpaceChar = tl.reverse ++ [c] := by
    rw [dropWhile_replicate_space]
    apply dropWhile_of_none
    intro x hx
    rcases List.mem_append.mp hx with hx | hx
    · exact hnos x (by simp [List.mem_reverse.mp hx])
    · rw [List.mem_singleton.mp hx]
      exact hnos c (by simp)
  rw [stripChars, h1, h2, h3, List.reverse_append, List.reverse_reverse]
  simp

/-- C5: identifier decoding from a string.  `Number._convert_input` and
`ChainID._convert_input` behave exactly as the spec's decoding rule: strip
whitespace first, parse as plain decimal when the remaining characters are
all digits, otherwise hybrid-36 decode (the discarded `inpt.strip()` call
in the code is harmless because the hybrid-36 decoder strips again); in
particular a decimal numeral surrounded by spaces decodes to the same
integer as the bare numeral. -/
theorem convert_input_strip_decimal :
    (∀ s : String, Number.convert_input s = convert_input_spec s ∧
      ChainID.convert_input s = convert_input_spec s) ∧
    (∀ (s : List Char) (a b : Nat), s ≠ [] → s.all isDigitChar = true →
      Number.convert_input
          ⟨List.replicate a ' ' ++ s ++ List.replicate b ' '⟩ =
        some (fromBase 10 (s.map digitVal)) ∧
      Number.convert_input ⟨s⟩ = some (fromBase 10 (s.map digitVal))) := by
  have hCN : ∀ s : String, ChainID.convert_input s = Number.convert_input s :=
    fun s => rfl
  refine ⟨fun s => ⟨convert_input_eq_spec s,
    (hCN s).trans (convert_input_eq_spec s)⟩, fun s a b hne hall => ?_⟩
  have hstrip : stripChars (List.replicate a ' ' ++ s ++
      List.replicate b ' ') = s := stripChars_pad s a b hne hall
  have hsid : stripChars s = s :=
    stripChars_of_none _
      (fun c hc => digit_not_space c (List.all_eq_true.mp hall c hc))
  constructor
  · rw [convert_input_eq_spec, convert_input_spec, string_mk_data, hstrip,
      if_pos ⟨hne, hall⟩]
  · rw [convert_input_eq_spec, convert_input_spec, string_mk_data, hsid,
      if_pos ⟨hne, hall⟩]

/-- Witness for C5: the numeral 42 surrounded by one space on each side
decodes like the bare numeral, and the code agrees with the spec's
strip-first rule on the concrete input " 42 ". -/
theorem convert_input_strip_decimal_witness :
    Number.convert_input " 42 " = convert_input_spec " 42 " ∧
    Number.convert_input
        ⟨List.replicate 1 ' ' ++ ['4', '2'] ++ List.replicate 1 ' '⟩ =
      some (fromBase 10 (['4', '2'].map digitVal)) :=
  ⟨(convert_input_strip_decimal.1 " 42 ").1,
   (convert_input_strip_decimal.2 ['4', '2'] 1 1 (by decide) (by decide)).1⟩

theorem alookup_append_of_none {β : Type} (k : Nat) (l1 l2 : List (Nat × β))
    (h : alookup k l1 = none) : alookup k (l1 ++ l2) = alookup k l2 := by
  induction l1 with
  | nil => rfl
  | cons p ps ih =>
    rw [alookup] at h
    by_cases hp : p.1 = k
    · rw [if_pos hp] at h
      exact absurd h (by simp)
    · rw [if_neg hp] at h
      rw [List.cons_append, alookup, if_neg hp]
      exact ih h

theorem alookup_append_of_some {β : Type} (k : Nat) (l1 l2 : List (Nat × β))
    (v : β) (h : alookup k l1 = some v) : alookup k (l1 ++ l2) = some v := by
  induction l1 with
  | nil => exact absurd h (by simp [alookup])
  | cons p ps ih =>
    rw [alookup] at h
    by_cases hp : p.1 = k
    · rw [if_pos hp] at h
      rw [List.cons_append, alookup, if_pos hp]
      exact h
    · rw [if_neg hp] at h
      rw [List.cons_append, alookup, if_neg hp]
      exact ih h

theorem alookup_aset_self {β : Type} (l : List (Nat × β)) (k : Nat) (v : β) :
    alookup k (aset l k v) = (alookup k l).map (fun _ => v) := by
  induction l with
  | nil => rfl
  | cons p ps ih =>
    show alookup k ((if p.1 = k then (k, v) else p) :: aset ps k v) =
      ((if p.1 = k then some p.2 else alookup k ps).map fun _ => v)
    by_cases hp : p.1 = k
    · rw [if_pos hp, if_pos hp, alookup, if_pos rfl]
      rfl
    · rw [if_neg hp, if_neg hp, alookup, if_neg hp, ih]

theorem alookup_aset_other {β : Type} (l : List (Nat × β)) (k c : Nat)
    (v : β) (h : c ≠ k) : alookup c (aset l k v) = alookup c l := by
  induction l with
  | nil => rfl
  | cons p ps ih =>
    show alookup c ((if p.1 = k then (k, v) else p) :: aset ps k v) =
      alookup c (p :: ps)
    by_cases hp : p.1 = k
    · rw [if_pos hp, alookup, alookup, ih,
        if_neg (show ¬((k, v).1 = c) from fun hkc => h (hkc.symm)),
        if_neg (show ¬(p.1 = c) from fun hpc => h (by omega))]
    · rw [if_neg hp, alookup, alookup, ih]

theorem alookup_eq_none_iff {β : Type} (k : Nat) (l : List (Nat × β)) :
    alookup k l = none ↔ k ∉ l.map Prod.fst := by
  induction l with
  | nil => simp [alookup]
  | cons p ps ih =>
    by_cases hp : p.1 = k
    · simp [alookup, hp]
    · simp [alookup, hp, ih, show ¬(k = p.1) from fun h => hp h.symm]

theorem aset_keys {β : Type} (l : List (Nat × β)) (k : Nat) (v : β) :
    (aset l k v).map Prod.fst = l.map Prod.fst := by
  induction l with
  | nil => rfl
  | cons p ps ih =>
    show (if p.1 = k then (k, v) else p).1 :: (aset ps k v).map Prod.fst =
      p.1 :: ps.map Prod.fst
    by_cases hp : p.1 = k
    · rw [if_pos hp, ih, hp]
    · rw [if_neg hp, ih]

theorem chainsStep_keys (ch : List (Nat × Nat)) (a : Atom) :
    (chainsStep ch a).map Prod.fst = keyInsert (ch.map Prod.fst) a.chain_id := by
  cases hl : alookup a.chain_id ch with
  | none =>
    have hmem : a.chain_id ∉ ch.map Prod.fst := (alookup_eq_none_iff _ _).mp hl
    simp only [chainsStep, hl, keyInsert, if_neg hmem, List.map_append,
      List.map_cons, List.map_nil]
  | some cur =>
    have hmem : a.chain_id ∈ ch.map Prod.fst := by
      by_contra hmem
      rw [(alookup_eq_none_iff _ _).mpr hmem] at hl
      exact absurd hl (by simp)
    simp only [chainsStep, hl, keyInsert, if_pos hmem]
    by_cases hcmp : cur < a.res_number
    · rw [if_pos hcmp, aset_keys]
    · rw [if_neg hcmp]

theorem seqsStep_keys (sq : List (Nat × List String)) (a : Atom) :
    (seqsStep sq a).map Prod.fst = keyInsert (sq.map Prod.fst) a.chain_id := by
  cases hl : alookup a.chain_id sq with
  | none =>
    have hmem : a.chain_id ∉ sq.map Prod.fst := (alookup_eq_none_iff _ _).mp hl
    simp only [seqsStep, hl, keyInsert, if_neg hmem, List.map_append,
      List.map_cons, List.map_nil]
  | some s =>
    have hmem : a.chain_id ∈ sq.map Prod.fst := by
      by_contra hmem
      rw [(alookup_eq_none_iff _ _).mpr hmem] at hl
      exact absurd hl (by simp)
    simp only [seqsStep, hl, keyInsert, if_pos hmem, aset_keys]

theorem foldl_pair_decomp (l : List Atom) :
    ∀ (ch : List (Nat × Nat)) (sq : List (Nat × List String)),
    l.foldl chainsSeqsStep (ch, sq) =
      (l.foldl chainsStep ch, l.foldl seqsStep sq) := by
  induction l with
  | nil => intro ch sq; rfl
  | cons a l ih => intro ch sq; exact ih _ _

theorem chains_fold_lookup (l : List Atom) :
    ∀ (ch : List (Nat × Nat)) (c : Nat),
    alookup c (l.foldl chainsStep ch) =
      ((l.filter (fun a => a.chain_id == c)).map Atom.res_number).foldl
        maxUpd (alookup c ch) := by
  induction l with
  | nil => intro ch c; rfl
  | cons a l ih =>
    intro ch c
    rw [List.foldl_cons, ih]
    by_cases hac : a.chain_id = c
    · have hfil : (a :: l).filter (fun x => x.chain_id == c) =
          a :: l.filter (fun x => x.chain_id == c) := by
        simp [List.filter_cons, hac]
      rw [hfil, List.map_cons, List.foldl_cons]
      congr 1
      subst hac
      cases hl : alookup a.chain_id ch with
      | none =>
        simp only [chainsStep, hl, maxUpd]
        rw [alookup_append_of_none _ _ _ hl, alookup, if_pos rfl]
      | some cur =>
        simp only [chainsStep, hl, maxUpd]
        by_cases hcmp : cur < a.res_number
        · rw [if_pos hcmp, alookup_aset_self, hl, Option.map_some',
            Nat.max_eq_right (Nat.le_of_lt hcmp)]
        · rw [if_neg hcmp, hl, Nat.max_eq_left (Nat.le_of_not_lt hcmp)]
    · have hfil : (a :: l).filter (fun x => x.chain_id == c) =
          l.filter (fun x => x.chain_id == c) := by
        simp [List.filter_cons, hac]
      rw [hfil]
      congr 1
      cases hl : alookup a.chain_id ch with
      | none =>
        simp only [chainsStep, hl]
        cases hcl : alookup c ch with
        | some v => rw [alookup_append_of_some _ _ _ _ hcl]
        | none =>
          rw [alookup_append_of_none _ _ _ hcl, alookup, if_neg hac, alookup]
      | some cur =>
        simp only [chainsStep, hl]
        by_cases hcmp : cur < a.res_number
        · rw [if_pos hcmp,
            alookup_aset_other _ _ _ _ (fun hcc => hac hcc.symm)]
        · rw [if_neg hcmp]

theorem seqs_fold_lookup (l : List Atom) :
    ∀ (sq : List (Nat × List String)) (c : Nat),
    alookup c (l.foldl seqsStep sq) =
      ((l.filter (fun a => a.chain_id == c)).map Atom.res_name).foldl
        seqUpd (alookup c sq) := by
  induction l with
  | nil => intro sq c; rfl
  | cons a l ih =>
    intro sq c
    rw [List.foldl_cons, ih]
    by_cases hac : a.chain_id = c
    · have hfil : (a :: l).filter (fun x => x.chain_id == c) =
          a :: l.filter (fun x => x.chain_id == c) := by
        simp [List.filter_cons, hac]
      rw [hfil, List.map_cons, List.foldl_cons]
      congr 1
      subst hac
      cases hl : alookup a.chain_id sq with
      | none =>
        simp only [seqsStep, hl, seqUpd]
        rw [alookup_append_of_none _ _ _ hl, alookup, if_pos rfl]
      | some s =>
        simp only [seqsStep, hl, seqUpd]
        rw [alookup_aset_self, hl, Option.map_some']
    · have hfil : (a :: l).filter (fun x => x.chain_id == c) =
          l.filter (fun x => x.chain_id == c) := by
        simp [List.filter_cons, hac]
      rw [hfil]
      congr 1
      cases hl : alookup a.chain_id sq with
      | none =>
        simp only [seqsStep, hl]
        cases hcl : alookup c sq with
        | some v => rw [alookup_append_of_some _ _ _ _ hcl]
        | none =>
          rw [alookup_append_of_none _ _ _ hcl, alookup, if_neg hac, alookup]
      | some s =>
        simp only [seqsStep, hl]
        rw [alookup_aset_other _ _ _ _ (fun hcc => hac hcc.symm)]

theorem maxUpd_foldl_some (rs : List Nat) :
    ∀ m : Nat, rs.foldl maxUpd (some m) = some (rs.foldl max m) := by
  induction rs with
  | nil => intro m; rfl
  | cons r rs ih => intro m; exact ih _

theorem maxUpd_foldl_none (rs : List Nat) (hne : rs ≠ []) :
    rs.foldl maxUpd none = some (rs.foldl max 0) := by
  cases rs with
  | nil => exact absurd rfl hne
  | cons r rs =>
    rw [List.foldl_cons, List.foldl_cons,
      show maxUpd none r = some r from rfl, maxUpd_foldl_some]
    rw [Nat.zero_max]

theorem seqUpd_foldl_some (rs : List String) :
    ∀ s : List String, rs.foldl seqUpd (some s) = some (s ++ rs) := by
  induction rs with
  | nil => intro s; simp
  | cons r rs ih =>
    intro s
    rw [List.foldl_cons, show seqUpd (some s) r = some (s ++ [r]) from rfl,
      ih, List.append_assoc, List.singleton_append]

theorem seqUpd_foldl_none (rs : List String) (hne : rs ≠ []) :
    rs.foldl seqUpd none = some rs := by
  cases rs with
  | nil => exact absurd rfl hne
  | cons r rs =>
    rw [List.foldl_cons, show seqUpd none r = some [r] from rfl,
      seqUpd_foldl_some, List.singleton_append]

theorem chains_fold_keys (l : List Atom) :
    ∀ ch : List (Nat × Nat),
    (l.foldl chainsStep ch).map Prod.fst =
      l.foldl (fun ks a => keyInsert ks a.chain_id) (ch.map Prod.fst) := by
  induction l with
  | nil => intro ch; rfl
  | cons a l ih =>
    intro ch
    rw [List.foldl_cons, List.foldl_cons, ih, chainsStep_keys]

theorem seqs_fold_keys (l : List Atom) :
    ∀ sq : List (Nat × List String),
    (l.foldl seqsStep sq).map Prod.fst =
      l.foldl (fun ks a => keyInsert ks a.chain_id) (sq.map Prod.fst) := by
  induction l with
  | nil => intro sq; rfl
  | cons a l ih =>
    intro sq
    rw [List.foldl_cons, List.foldl_cons, ih, seqsStep_keys]

theorem keyInsert_foldl (l : List Nat) :
    ∀ ks : List Nat,
    l.foldl keyInsert ks =
      ks ++ (firstOccs l).filter (fun y => decide (y ∉ ks)) := by
  induction l with
  | nil => intro ks; simp [firstOccs]
  | cons x xs ih =>
    intro ks
    rw [List.foldl_cons, ih, firstOccs, List.filter_cons]
    by_cases hx : x ∈ ks
    · rw [keyInsert, if_pos hx, if_neg (by simp [hx]), List.filter_filter]
      congr 1
      apply List.filter_congr
      intro y _
      by_cases hyx : y = x
      · subst hyx
        simp [hx]
      · simp [hyx]
    · rw [keyInsert, if_neg hx, if_pos (by simp [hx]), List.filter_filter,
        List.append_assoc, List.singleton_append]
      congr 2
      apply List.filter_congr
      intro y _
      by_cases hyx : y = x
      · subst hyx
        simp
      · by_cases hyk : y ∈ ks
        · simp [hyx, hyk]
        · simp [hyx, hyk]

/-- C10: after aggregation, the per-chain max-residue-number map and the
per-chain sequence map hold exactly the same chain keys in the same order,
namely the chains in order of first appearance among the anchor atoms, so
every chain with an entity/entity_src line has a sequence record and vice
versa. -/
theorem chains_seqs_key_alignment (atoms : List Atom) :
    (get_chains_seqs atoms).1.map Prod.fst =
      (get_chains_seqs atoms).2.map Prod.fst ∧
    (get_chains_seqs atoms).1.map Prod.fst =
      firstOccs ((anchors atoms).map Atom.chain_id) ∧
    ∀ c : Nat, (alookup c (get_chains_seqs atoms).1).isSome =
      (alookup c (get_chains_seqs atoms).2).isSome := by
  have hdec := foldl_pair_decomp (anchors atoms) [] []
  have hkc : (get_chains_seqs atoms).1.map Prod.fst =
      (anchors atoms).foldl (fun ks a => keyInsert ks a.chain_id) [] := by
    rw [get_chains_seqs, hdec]
    exact chains_fold_keys (anchors atoms) []
  have hks : (get_chains_seqs atoms).2.map Prod.fst =
      (anchors atoms).foldl (fun ks a => keyInsert ks a.chain_id) [] := by
    rw [get_chains_seqs, hdec]
    exact seqs_fold_keys (anchors atoms) []
  have hkeys : (get_chains_seqs atoms).1.map Prod.fst =
      (get_chains_seqs atoms).2.map Prod.fst := by rw [hkc, hks]
  have hmap : (anchors atoms).foldl (fun ks a => keyInsert ks a.chain_id) []
      = ((anchors atoms).map Atom.chain_id).foldl keyInsert [] :=
    (List.foldl_map Atom.chain_id keyInsert (anchors atoms) []).symm
  have hfo : ((anchors atoms).map Atom.chain_id).foldl keyInsert [] =
      firstOccs ((anchors atoms).map Atom.chain_id) := by
    rw [keyInsert_foldl]
    simp
  refine ⟨hkeys, by rw [hkc, hmap, hfo], fun c => ?_⟩
  by_cases hc : c ∈ (get_chains_seqs atoms).1.map Prod.fst
  · have h1 : (alookup c (get_chains_seqs atoms).1).isSome = true :=
      Option.ne_none_iff_isSome.mp
        (fun heq => ((alookup_eq_none_iff _ _).mp heq) hc)
    have hc2 : c ∈ (get_chains_seqs atoms).2.map Prod.fst := by
      rw [← hkeys]
      exact hc
    have h2 : (alookup c (get_chains_seqs atoms).2).isSome = true :=
      Option.ne_none_iff_isSome.mp
        (fun heq => ((alookup_eq_none_iff _ _).mp heq) hc2)
    rw [h1, h2]
  · have h1 : alookup c (get_chains_seqs atoms).1 = none :=
      (alookup_eq_none_iff _ _).mpr hc
    have hc2 : c ∉ (get_chains_seqs atoms).2.map Prod.fst := by
      rw [← hkeys]
      exact hc
    have h2 : alookup c (get_chains_seqs atoms).2 = none :=
      (alookup_eq_none_iff _ _).mpr hc2
    rw [h1, h2]
    rfl

theorem count_map_eq_countP (f : Atom → Nat × Nat) (l : List Atom)
    (p : Nat × Nat) :
    (l.map f).count p = l.countP (fun a => f a == p) := by
  induction l with
  | nil => rfl
  | cons a l ih =>
    rw [List.map_cons, List.count_cons, List.countP_cons, ih]

theorem dedup_toFinset_eq (l : List (Nat × Nat)) :
    l.dedup.toFinset = l.toFinset := by
  ext x
  simp [List.mem_toFinset, List.mem_dedup]

theorem nodup_of_count_le_one (l : List (Nat × Nat))
    (h : ∀ p : Nat × Nat, l.count p ≤ 1) : l.Nodup := by
  induction l with
  | nil => exact List.nodup_nil
  | cons x xs ih =>
    rw [List.nodup_cons]
    constructor
    · have hx := h x
      rw [List.count_cons, if_pos (beq_self_eq_true x)] at hx
      have h0 : xs.count x = 0 := by omega
      exact List.count_eq_zero.mp h0
    · apply ih
      intro p
      have hp := h p
      rw [List.count_cons] at hp
      by_cases hb : (x == p) = true
      · rw [if_pos hb] at hp
        omega
      · rw [if_neg hb] at hp
        omega

/-- C8: aggregator anchor counting.  When every residue (chain number,
residue number pair) of the structure has exactly one atom whose canonical
name is the anchor C3', then for every chain with at least one anchor the
derived sequence lists exactly the anchor residue names in document order,
its length equals the number of distinct residues of that chain, and the
recorded chain length is the maximum residue number among the chain's
anchor atoms. -/
theorem aggregator_anchor_counting (atoms : List Atom)
    (H : ∀ cid rn,
      (cid, rn) ∈ atoms.map (fun a => (a.chain_id, a.res_number)) →
      atoms.countP (fun a => (a.chain_id == cid && a.res_number == rn) &&
        a.atom_name == "C3'") = 1)
    (c : Nat)
    (hc : (anchors atoms).filter (fun a => a.chain_id == c) ≠ []) :
    alookup c (get_chains_seqs atoms).2 =
      some (((anchors atoms).filter (fun a => a.chain_id == c)).map
        Atom.res_name) ∧
    (((anchors atoms).filter (fun a => a.chain_id == c)).map
        Atom.res_name).length =
      ((atoms.map (fun a => (a.chain_id, a.res_number))).dedup.filter
        (fun p => p.1 == c)).length ∧
    alookup c (get_chains_seqs atoms).1 =
      some ((((anchors atoms).filter (fun a => a.chain_id == c)).map
        Atom.res_number).foldl max 0) := by
  have hdec := foldl_pair_decomp (anchors atoms) [] []
  refine ⟨?_, ?_, ?_⟩
  · rw [get_chains_seqs, hdec]
    show alookup c ((anchors atoms).foldl seqsStep []) = _
    rw [seqs_fold_lookup,
      show alookup c ([] : List (Nat × List String)) = none from rfl,
      seqUpd_foldl_none _ (by simpa using hc)]
  · have hanc : (anchors atoms).filter (fun a => a.chain_id == c) =
        atoms.filter (fun a => (a.chain_id == c) && a.atom_name == "C3'") := by
      rw [anchors, List.filter_filter]
    rw [List.length_map, hanc]
    have hMcount : ∀ p : Nat × Nat,
        p ∈ (atoms.filter (fun a => (a.chain_id == c) &&
          a.atom_name == "C3'")).map (fun a => (a.chain_id, a.res_number)) →
        ((atoms.filter (fun a => (a.chain_id == c) &&
          a.atom_name == "C3'")).map
            (fun a => (a.chain_id, a.res_number))).count p = 1 := by
      intro p hp
      obtain ⟨a, ha, hfa⟩ := List.mem_map.mp hp
      obtain ⟨hamem, hapred⟩ := List.mem_filter.mp ha
      simp only [Bool.and_eq_true, beq_iff_eq] at hapred
      have hp1 : p.1 = c := by
        rw [← hfa]
        exact hapred.1
      have hpairmem : (p.1, p.2) ∈
          atoms.map (fun a => (a.chain_id, a.res_number)) :=
        List.mem_map.mpr ⟨a, hamem, hfa⟩
      rw [count_map_eq_countP, List.countP_filter]
      have hcong : atoms.countP (fun x =>
          ((x.chain_id, x.res_number) == p) &&
            ((x.chain_id == c) && x.atom_name == "C3'")) =
          atoms.countP (fun x =>
            (x.chain_id == p.1 && x.res_number == p.2) &&
              x.atom_name == "C3'") := by
        apply List.countP_congr
        intro x _
        subst hp1
        simp only [Bool.and_eq_true, beq_iff_eq, Prod.ext_iff]
        tauto
      rw [hcong]
      exact H p.1 p.2 hpairmem
    have hnodup : ((atoms.filter (fun a => (a.chain_id == c) &&
        a.atom_name == "C3'")).map
          (fun a => (a.chain_id, a.res_number))).Nodup := by
      apply nodup_of_count_le_one
      intro p
      by_cases hp : p ∈ (atoms.filter (fun a => (a.chain_id == c) &&
          a.atom_name == "C3'")).map (fun a => (a.chain_id, a.res_number))
      · exact Nat.le_of_eq (hMcount p hp)
      · have h0 := List.count_eq_zero.mpr hp
        omega
    have htofin : ((atoms.filter (fun a => (a.chain_id == c) &&
        a.atom_name == "C3'")).map
          (fun a => (a.chain_id, a.res_number))).toFinset =
        ((atoms.map (fun a => (a.chain_id, a.res_number))).filter
          (fun p => p.1 == c)).toFinset := by
      ext x
      simp only [List.mem_toFinset]
      constructor
      · intro hx
        obtain ⟨a, ha, hfa⟩ := List.mem_map.mp hx
        obtain ⟨hamem, hapred⟩ := List.mem_filter.mp ha
        simp only [Bool.and_eq_true, beq_iff_eq] at hapred
        refine List.mem_filter.mpr ⟨List.mem_map.mpr ⟨a, hamem, hfa⟩, ?_⟩
        rw [← hfa]
        simp [hapred.1]
      · intro hx
        obtain ⟨hxp, hxq⟩ := List.mem_filter.mp hx
        obtain ⟨a, hamem, hfa⟩ := List.mem_map.mp hxp
        have hcid : a.chain_id = c := by
          have hx1 : x.1 = c := by simpa using hxq
          rw [← hfa] at hx1
          exact hx1
        have h1 := H a.chain_id a.res_number
          (List.mem_map.mpr ⟨a, hamem, rfl⟩)
        have hpos : 0 < atoms.countP (fun b =>
            (b.chain_id == a.chain_id && b.res_number == a.res_number) &&
              b.atom_name == "C3'") := by omega
        obtain ⟨b, hbmem, hbp⟩ := List.countP_pos_iff.mp hpos
        simp only [Bool.and_eq_true, beq_iff_eq] at hbp
        refine List.mem_map.mpr ⟨b, List.mem_filter.mpr ⟨hbmem, ?_⟩, ?_⟩
        · simp [hbp.1.1, hcid, hbp.2]
        · rw [← hfa]
          simp [Prod.ext_iff, hbp.1.1, hbp.1.2]
    have hdedup_nodup : (((atoms.map
        (fun a => (a.chain_id, a.res_number))).dedup).filter
          (fun p => p.1 == c)).Nodup :=
      List.Nodup.filter _
        (List.nodup_dedup (atoms.map (fun a => (a.chain_id, a.res_number))))
    have hfin2 : (((atoms.map
        (fun a => (a.chain_id, a.res_number))).dedup).filter
          (fun p => p.1 == c)).toFinset =
        ((atoms.map (fun a => (a.chain_id, a.res_number))).filter
          (fun p => p.1 == c)).toFinset := by
      rw [List.toFinset_filter, List.toFinset_filter, dedup_toFinset_eq]
    calc (atoms.filter (fun a => (a.chain_id == c) &&
          a.atom_name == "C3'")).length
        = ((atoms.filter (fun a => (a.chain_id == c) &&
            a.atom_name == "C3'")).map
              (fun a => (a.chain_id, a.res_number))).length :=
          (List.length_map _ _).symm
      _ = ((atoms.filter (fun a => (a.chain_id == c) &&
            a.atom_name == "C3'")).map
              (fun a => (a.chain_id, a.res_number))).toFinset.card :=
          (List.toFinset_card_of_nodup hnodup).symm
      _ = ((atoms.map (fun a => (a.chain_id, a.res_number))).filter
            (fun p => p.1 == c)).toFinset.card := by rw [htofin]
      _ = (((atoms.map (fun a => (a.chain_id, a.res_number))).dedup).filter
            (fun p => p.1 == c)).toFinset.card := by rw [hfin2]
      _ = (((atoms.map (fun a => (a.chain_id, a.res_number))).dedup).filter
            (fun p => p.1 == c)).length :=
          List.toFinset_card_of_nodup hdedup_nodup
  · rw [get_chains_seqs, hdec]
    show alookup c ((anchors atoms).foldl chainsStep []) = _
    rw [chains_fold_lookup,
      show alookup c ([] : List (Nat × Nat)) = none from rfl,
      maxUpd_foldl_none _ (by simpa using hc)]

/-- Witness for C8: the aggregator on `testAtoms`, chain 1: the sequence
is the two anchor residue names in order, its length is the number of
distinct residues of chain 1, and the recorded length is the anchors'
maximum residue number. -/
theorem aggregator_anchor_counting_witness :
    alookup 1 (get_chains_seqs testAtoms).2 =
      some (((anchors testAtoms).filter (fun a => a.chain_id == 1)).map
        Atom.res_name) ∧
    (((anchors testAtoms).filter (fun a => a.chain_id == 1)).map
        Atom.res_name).length =
      ((testAtoms.map (fun a => (a.chain_id, a.res_number))).dedup.filter
        (fun p => p.1 == 1)).length ∧
    alookup 1 (get_chains_seqs testAtoms).1 =
      some ((((anchors testAtoms).filter (fun a => a.chain_id == 1)).map
        Atom.res_number).foldl max 0) :=
  aggregator_anchor_counting testAtoms
    (by
      intro cid rn h
      have h' : (cid = 1 ∧ rn = 1) ∨ (cid = 1 ∧ rn = 2) ∨
          (cid = 2 ∧ rn = 500) := by
        simpa [testAtoms, Prod.ext_iff] using h
      rcases h' with ⟨rfl, rfl⟩ | ⟨rfl, rfl⟩ | ⟨rfl, rfl⟩ <;> decide)
    1 (by decide)
